import Mathlib

/-!
Shallow embedding of the core of the Shazam-style audio identification
engine (repository `AbhiRam162105/Shazam`, Python).  The embedded modules
are `src/config.py`, `src/fingerprinting.py`, `src/matching.py`,
`src/database.py`, `src/audio_processing.py` and `src/shazam_system.py`.

Conventions of the embedding:
* Python `float` values are modelled as `ℚ` where only ordering and exact
  rational arithmetic matter (spectrogram amplitudes, time offsets), and as
  `ℝ` where `np.log` enters (the matcher's confidence score).
* Python `int` time frames / ids are `ℕ`, signed time deltas are `ℤ`.
* `hashlib.sha256(...).hexdigest()` is an external library function; the
  fingerprinting definitions are parameterised over it
  (`H : String → String`).  Every claim below holds for every `H`.
* `scipy.signal.find_peaks(x, height=h, distance=d)` is embedded faithfully
  (interior local maxima with plateau midpoints, the `height` filter, and
  the priority-based `distance` filter), following scipy's documented
  `_local_maxima_1d` / `_select_by_peak_distance` algorithms.
* The SQLite `songs` table (`INSERT OR REPLACE`, `AUTOINCREMENT` ids,
  `file_path UNIQUE`) and the Redis postings index (`lpush`/`lrange`) are
  modelled as explicit functional state.
-/

namespace Shazam

/-! ### Constants from `src/config.py` -/

def SAMPLE_RATE : ℕ := 22050
def PEAK_NEIGHBORHOOD_SIZE : ℕ := 5
def MIN_PEAK_AMPLITUDE : ℚ := 1/1000
def HASH_TIME_DELTA_MIN : ℤ := 1
def HASH_TIME_DELTA_MAX : ℤ := 200
def HASH_FAN_VALUE : ℕ := 5
def MIN_MATCHING_HASHES : ℕ := 3
def TIME_ALIGNMENT_TOLERANCE : ℤ := 5
noncomputable def CONFIDENCE_THRESHOLD : ℝ := 5/100
def MAX_QUERY_DURATION : ℕ := 30
def MAX_FINGERPRINTS_PER_TRACK : ℕ := 10000

/-! ### Python `round` (banker's rounding, used by `matching.py`) -/

/-- Python's builtin `round` on an exact rational: round to the nearest
integer, halves to the nearest even integer. -/
def pyRound (x : ℚ) : ℤ :=
  let f : ℤ := x.floor
  let r : ℚ := x - f
  if r < 1/2 then f
  else if 1/2 < r then f + 1
  else if f % 2 = 0 then f else f + 1

/-! ### `collections.Counter` order-sensitive mode
(`Counter(xs).most_common(1)[0]`): the key with the greatest multiplicity,
ties resolved in favour of the key whose first occurrence in `xs` is
earliest (Counter preserves insertion order and Python's sort is stable). -/

/-- The distinct elements of `l` in order of first occurrence. -/
def firstOccAux : List ℤ → List ℤ → List ℤ
  | acc, [] => acc.reverse
  | acc, x :: xs => if x ∈ acc then firstOccAux acc xs else firstOccAux (x :: acc) xs

def firstOcc (l : List ℤ) : List ℤ := firstOccAux [] l

/-- `Counter(l).most_common(1)[0]` : the (value, count) pair with maximal
count, earliest first occurrence winning ties.  `none` iff `l` is empty. -/
def mostCommon1 (l : List ℤ) : Option (ℤ × ℕ) :=
  match firstOcc l with
  | [] => none
  | k :: ks =>
      some (ks.foldl (fun b key => if l.count key > b.2 then (key, l.count key) else b)
        (k, l.count k))

/-! ### `AudioMatcher._find_best_alignment` (`src/matching.py:164-197`) -/

/-- The quantised offset `round(offset / TIME_ALIGNMENT_TOLERANCE) *
TIME_ALIGNMENT_TOLERANCE` of a raw time offset. -/
def quantizeOffset (o : ℤ) : ℤ :=
  pyRound ((o : ℚ) / (TIME_ALIGNMENT_TOLERANCE : ℚ)) * TIME_ALIGNMENT_TOLERANCE

/-- `_find_best_alignment`: quantise the offsets, take the mode of the
quantised histogram, and apply the adaptive alignment gate.  Returns
`(best_offset, aligned_count)` or `none`. -/
def findBestAlignment (timeOffsets : List ℤ) : Option (ℤ × ℕ) :=
  if timeOffsets = [] then none
  else
    let quantized := timeOffsets.map quantizeOffset
    match mostCommon1 quantized with
    | none => none
    | some (bestOffset, bestCount) =>
        let alignmentRatio : ℚ := (bestCount : ℚ) / timeOffsets.length
        let uniqueRatio : ℚ := ((firstOcc timeOffsets).length : ℚ) / timeOffsets.length
        let minAlignment : ℚ := if uniqueRatio < 3/10 then 5/100 else 3/10
        if alignmentRatio < minAlignment then none
        else some (bestOffset, bestCount)

/-- The aligned count of a list of raw offsets: the multiplicity of the mode
of the quantised offsets (0 for the empty list). -/
def alignedCountOf (timeOffsets : List ℤ) : ℕ :=
  ((mostCommon1 (timeOffsets.map quantizeOffset)).map Prod.snd).getD 0

/-- The adaptive gate threshold of `_find_best_alignment`. -/
def gateThreshold (timeOffsets : List ℤ) : ℚ :=
  if ((firstOcc timeOffsets).length : ℚ) / timeOffsets.length < 3/10 then 5/100 else 3/10

/-- The acceptance condition claimed for the alignment gate. -/
def gateSpec (timeOffsets : List ℤ) : Prop :=
  (findBestAlignment timeOffsets).isSome ↔
    (alignedCountOf timeOffsets : ℚ) / timeOffsets.length ≥ gateThreshold timeOffsets

/-! ### `AudioMatcher._calculate_confidence` (`src/matching.py:199-243`) -/

/-- `_calculate_confidence(aligned_count, total_matches, total_query_hashes)`.
`np.log` is the natural logarithm, modelled by `Real.log`. -/
noncomputable def calculateConfidence (alignedCount totalMatches totalQueryHashes : ℕ) : ℝ :=
  if totalMatches = 0 ∨ totalQueryHashes = 0 then 0
  else
    let alignmentStrength : ℝ := (alignedCount : ℝ) / totalMatches
    let coverage : ℝ := min 1 ((totalMatches : ℝ) / totalQueryHashes)
    let rawStrength : ℝ := min 1 (Real.log (alignedCount + 1) / Real.log 20)
    let uniqueBonus : ℝ :=
      if totalQueryHashes < totalMatches then
        max (1/2) ((totalQueryHashes : ℝ) / totalMatches)
      else 1
    min 1 (4/10 * alignmentStrength + 3/10 * rawStrength + 2/10 * coverage
      + 1/10 * uniqueBonus)

/-- Modelled from the spec (§4.6 Step 5): the claimed confidence formula,
whose `unique_bonus` is `min(1, |query_hashes|/|bucket|)` when the bucket
is larger than the query, and whose result is clamped to `[0, 1]`. -/
noncomputable def specConfidence (alignedCount totalMatches totalQueryHashes : ℕ) : ℝ :=
  let alignmentStrength : ℝ := (alignedCount : ℝ) / totalMatches
  let coverage : ℝ := min 1 ((totalMatches : ℝ) / totalQueryHashes)
  let rawStrength : ℝ := min 1 (Real.log (alignedCount + 1) / Real.log 20)
  let uniqueBonus : ℝ :=
    if totalQueryHashes < totalMatches then
      min 1 ((totalQueryHashes : ℝ) / totalMatches)
    else 1
  min 1 (max 0 (4/10 * alignmentStrength + 3/10 * rawStrength + 2/10 * coverage
    + 1/10 * uniqueBonus))

/-! ### scipy.signal.find_peaks, as called by `_find_peaks_in_band`
(`src/fingerprinting.py:177-181`): interior local maxima (plateaus reduce
to their midpoint), filtered by `height=MIN_PEAK_AMPLITUDE` and
`distance=PEAK_NEIGHBORHOOD_SIZE`. -/

/-- Number of iterations of the scipy `_local_maxima_1d` inner loop
(`while i_ahead < i_max and x[i_ahead] == x[i]: i_ahead += 1`) when started
at `j`: the length of the run of samples equal to `v` in `[j, iMax)`.
`fuel` is a structural bound on the iteration count; any `fuel ≥ iMax - j`
gives the loop's exact behaviour, since `j` increases towards `iMax`. -/
def plateauLen (x : List ℚ) (v : ℚ) (iMax : ℕ) : ℕ → ℕ → ℕ
  | 0, _ => 0
  | fuel + 1, j => if j < iMax ∧ x.getD j 0 = v then plateauLen x v iMax fuel (j + 1) + 1 else 0

/-- Main loop of scipy `_local_maxima_1d` from position `i`: emit the
midpoint of every maximal run `x[i..iA-1]` with `x[i-1] < x[i]` and
`x[iA] < x[i]`; the first and last samples can never be maxima.  `fuel`
is a structural bound on the iteration count; any `fuel ≥ x.length - i`
gives the loop's exact behaviour, since `i` advances by at least one per
iteration (by `iA - i + 1` when a maximum is emitted). -/
def localMaximaAux (x : List ℚ) : ℕ → ℕ → List ℕ
  | 0, _ => []
  | fuel + 1, i =>
    if i + 1 < x.length then
      if x.getD (i - 1) 0 < x.getD i 0 then
        if x.getD (i + 1 + plateauLen x (x.getD i 0) (x.length - 1) (x.length - 1) (i + 1)) 0
            < x.getD i 0 then
          (i + (i + 1 + plateauLen x (x.getD i 0) (x.length - 1) (x.length - 1) (i + 1) - 1)) / 2
            :: localMaximaAux x fuel
                (i + 1 + plateauLen x (x.getD i 0) (x.length - 1) (x.length - 1) (i + 1) + 1)
        else localMaximaAux x fuel (i + 1)
      else localMaximaAux x fuel (i + 1)
    else []

/-- Indices of the interior local maxima of a 1-d signal. -/
def localMaxima (x : List ℚ) : List ℕ := localMaximaAux x x.length 1

/-- Local maxima that pass the `height` filter (`amplitude ≥ height`). -/
def heightFiltered (x : List ℚ) : List ℕ :=
  (localMaxima x).filter (fun j => MIN_PEAK_AMPLITUDE ≤ x.getD j 0)

/-- Priority order used by scipy `_select_by_peak_distance`: peaks are
processed by decreasing height, ties by decreasing position (stable
`np.argsort` traversed backwards). -/
def prioRel (x : List ℚ) (a b : ℕ) : Prop :=
  x.getD b 0 < x.getD a 0 ∨ (x.getD a 0 = x.getD b 0 ∧ b ≤ a)

instance (x : List ℚ) : DecidableRel (prioRel x) := fun a b => by
  unfold prioRel; infer_instance

instance (x : List ℚ) : IsTotal ℕ (prioRel x) where
  total a b := by
    unfold prioRel
    rcases lt_trichotomy (x.getD a 0) (x.getD b 0) with h | h | h
    · exact Or.inr (Or.inl h)
    · rcases Nat.le_total a b with hab | hab
      · exact Or.inr (Or.inr ⟨h.symm, hab⟩)
      · exact Or.inl (Or.inr ⟨h, hab⟩)
    · exact Or.inl (Or.inl h)

instance (x : List ℚ) : IsTrans ℕ (prioRel x) where
  trans a b c hab hbc := by
    unfold prioRel at *
    rcases hab with h1 | ⟨h1, h1'⟩ <;> rcases hbc with h2 | ⟨h2, h2'⟩
    · exact Or.inl (h2.trans h1)
    · exact Or.inl (h2 ▸ h1)
    · exact Or.inl (h1 ▸ h2)
    · exact Or.inr ⟨h1.trans h2, h2'.trans h1'⟩

/-- Core of scipy `_select_by_peak_distance`: process candidates in
priority order; a candidate is kept iff it is not within `dist` of an
already-kept (higher-priority) peak. -/
def keepFold (dist : ℕ) : List ℕ → List ℕ → List ℕ
  | kept, [] => kept
  | kept, p :: rest =>
      if kept.any (fun k => ((p : ℤ) - (k : ℤ)).natAbs < dist) then keepFold dist kept rest
      else keepFold dist (p :: kept) rest

/-- scipy `_select_by_peak_distance`: the surviving peak positions, in
ascending position order. -/
def selectByDistance (x : List ℚ) (cands : List ℕ) (dist : ℕ) : List ℕ :=
  cands.filter (fun p => p ∈ keepFold dist [] (List.insertionSort (prioRel x) cands))

/-- Full model of `find_peaks(time_slice, height=MIN_PEAK_AMPLITUDE,
distance=PEAK_NEIGHBORHOOD_SIZE)`: the returned peak indices. -/
def findPeaksIndices (x : List ℚ) : List ℕ :=
  selectByDistance x (heightFiltered x) PEAK_NEIGHBORHOOD_SIZE

/-! ### Spectral peaks (`src/fingerprinting.py`) -/

/-- Dataclass `SpectralPeak`. -/
structure SpectralPeak where
  frequency_bin : ℕ
  time_frame : ℕ
  amplitude : ℚ
deriving DecidableEq

/-- Index of the first occurrence of the maximum of a list (np.argmax). -/
def argmaxAux : List ℚ → ℕ → ℕ → ℚ → ℕ
  | [], _, best, _ => best
  | v :: vs, i, best, bestVal =>
      if bestVal < v then argmaxAux vs (i + 1) i v else argmaxAux vs (i + 1) best bestVal

/-- np.argmax on a list of amplitudes (0 on the empty list). -/
def argmaxIdx : List ℚ → ℕ
  | [] => 0
  | v :: vs => argmaxAux vs 1 0 v

/-- Body of the per-time-frame loop of `_find_peaks_in_band`
(`src/fingerprinting.py:173-197`): run `find_peaks` on the column, and keep
only the strongest returned peak (first maximum under np.argmax). -/
def findPeaksInColumn (col : List ℚ) (freqOffset t : ℕ) : Option SpectralPeak :=
  let peakIndices := findPeaksIndices col
  if peakIndices = [] then none
  else
    let amplitudes := peakIndices.map (fun j => col.getD j 0)
    let strongest := argmaxIdx amplitudes
    some { frequency_bin := peakIndices.getD strongest 0 + freqOffset,
           time_frame := t,
           amplitude := amplitudes.getD strongest 0 }

/-- `_find_peaks_in_band` over a band spectrogram given as its list of
time-frame columns (each column lists the band's bins bottom-up). -/
def findPeaksInBand (bandSpec : List (List ℚ)) (freqOffset : ℕ) : List SpectralPeak :=
  bandSpec.enum.filterMap (fun tc => findPeaksInColumn tc.2 freqOffset tc.1)

/-- Sort key of `extract_peaks` (`peaks.sort(key=lambda p: (p.time_frame,
-p.amplitude))`): time ascending, amplitude descending. -/
def peakOrder (p q : SpectralPeak) : Prop :=
  p.time_frame < q.time_frame ∨ (p.time_frame = q.time_frame ∧ q.amplitude ≤ p.amplitude)

instance : DecidableRel peakOrder := fun p q => by unfold peakOrder; infer_instance

instance : IsTotal SpectralPeak peakOrder where
  total p q := by
    unfold peakOrder
    rcases lt_trichotomy p.time_frame q.time_frame with h | h | h
    · exact Or.inl (Or.inl h)
    · rcases le_total q.amplitude p.amplitude with h' | h'
      · exact Or.inl (Or.inr ⟨h, h'⟩)
      · exact Or.inr (Or.inr ⟨h.symm, h'⟩)
    · exact Or.inr (Or.inl h)

instance : IsTrans SpectralPeak peakOrder where
  trans p q r hpq hqr := by
    unfold peakOrder at *
    rcases hpq with h1 | ⟨h1, h1'⟩ <;> rcases hqr with h2 | ⟨h2, h2'⟩
    · exact Or.inl (h1.trans h2)
    · exact Or.inl (h2 ▸ h1)
    · exact Or.inl (h1 ▸ h2)
    · exact Or.inr ⟨h1.trans h2, h2'.trans h1'⟩

/-- A band spectrogram: restriction of every time-frame column of the full
spectrogram to the bin range `[low, high)` (`spectrogram[low_bin:high_bin, :]`). -/
def bandSlice (spec : List (List ℚ)) (low high : ℕ) : List (List ℚ) :=
  spec.map (fun col => (col.drop low).take (high - low))

/-- `extract_peaks` (`src/fingerprinting.py:126-154`): find the per-band
peaks for every configured band and sort the merged list by
`(time_frame, -amplitude)`.  The spectrogram is given time-major (one list
of bin magnitudes per time frame); `bands` lists `(low_bin, high_bin)`. -/
def extractPeaks (spec : List (List ℚ)) (bands : List (ℕ × ℕ)) : List SpectralPeak :=
  let peaks := bands.flatMap (fun b => findPeaksInBand (bandSlice spec b.1 b.2) b.1)
  List.insertionSort peakOrder peaks

/-! ### Hash generation (`src/fingerprinting.py:201-301`) -/

/-- Dataclass `AudioHash`. -/
structure AudioHash where
  hash_value : String
  time_offset : ℕ
  anchor_freq : ℕ
  target_freq : ℕ
  time_delta : ℤ
deriving DecidableEq

/-- `_create_hash` (`src/fingerprinting.py:269-301`), parameterised by the
external digest function `H` (`hashlib.sha256(.).hexdigest()`); the code
keeps the first 16 hex characters of the digest. -/
def createHash (H : String → String) (anchor target : SpectralPeak) : Option AudioHash :=
  let timeDelta : ℤ := (target.time_frame : ℤ) - (anchor.time_frame : ℤ)
  if HASH_TIME_DELTA_MIN ≤ timeDelta ∧ timeDelta ≤ HASH_TIME_DELTA_MAX then
    let hashString := toString anchor.frequency_bin ++ "|" ++ toString target.frequency_bin
      ++ "|" ++ toString timeDelta
    some { hash_value := (H hashString).take 16,
           time_offset := anchor.time_frame,
           anchor_freq := anchor.frequency_bin,
           target_freq := target.frequency_bin,
           time_delta := timeDelta }
  else none

/-- Loop of `_find_target_peaks` (`src/fingerprinting.py:236-267`):
`numTargets` counts targets collected so far; candidates closer than
`HASH_TIME_DELTA_MIN` are skipped, the scan breaks past
`HASH_TIME_DELTA_MAX` or once `maxTargets` are collected. -/
def findTargetPeaksAux (anchorTime maxTargets : ℕ) : List SpectralPeak → ℕ → List SpectralPeak
  | [], _ => []
  | p :: rest, numTargets =>
      let timeDelta : ℤ := (p.time_frame : ℤ) - (anchorTime : ℤ)
      if timeDelta < HASH_TIME_DELTA_MIN then findTargetPeaksAux anchorTime maxTargets rest numTargets
      else if HASH_TIME_DELTA_MAX < timeDelta then []
      else if maxTargets ≤ numTargets + 1 then [p]
      else p :: findTargetPeaksAux anchorTime maxTargets rest (numTargets + 1)

/-- `_find_target_peaks(anchor, candidates, max_targets)`. -/
def findTargetPeaks (anchor : SpectralPeak) (candidates : List SpectralPeak)
    (maxTargets : ℕ) : List SpectralPeak :=
  findTargetPeaksAux anchor.time_frame maxTargets candidates 0

/-- Sort key used by `generate_hashes` (`sorted(peaks, key=lambda p:
p.time_frame)`). -/
def timeOrder (p q : SpectralPeak) : Prop := p.time_frame ≤ q.time_frame

instance : DecidableRel timeOrder := fun p q => by unfold timeOrder; infer_instance

instance : IsTotal SpectralPeak timeOrder := ⟨fun _ _ => Nat.le_total _ _⟩

instance : IsTrans SpectralPeak timeOrder := ⟨fun _ _ _ h h' => Nat.le_trans h h'⟩

/-- Anchor loop of `generate_hashes`: for each anchor (in time order) pair
it with its target-zone peaks and keep the successfully created hashes. -/
def genHashesAux (H : String → String) : List SpectralPeak → List AudioHash
  | [] => []
  | anchor :: rest =>
      ((findTargetPeaks anchor rest HASH_FAN_VALUE).filterMap (createHash H anchor))
        ++ genHashesAux H rest

/-- `generate_hashes` (`src/fingerprinting.py:201-234`). -/
def generateHashes (H : String → String) (peaks : List SpectralPeak) : List AudioHash :=
  genHashesAux H (List.insertionSort timeOrder peaks)

/-- `fingerprint_audio` (`src/fingerprinting.py:303-338`), parameterised by
the external STFT (`scipy.signal.stft`, returned time-major) and the band
bin ranges computed in `_compute_band_indices`. -/
def fingerprintAudio (H : String → String) (stft : List ℚ → List (List ℚ))
    (bands : List (ℕ × ℕ)) (audio : List ℚ) : List AudioHash :=
  let spectrogram := stft audio
  let peaks := extractPeaks spectrogram bands
  if peaks = [] then []
  else
    let hashes := generateHashes H peaks
    if hashes = [] then [] else hashes

/-! ### Database (`src/database.py`): SQLite `songs` table plus Redis
postings index, as explicit functional state. -/

/-- Row of the SQLite `songs` table (`date_added` is wall-clock metadata
and is not modelled). -/
structure SongRow where
  id : ℕ
  title : String
  artist : String
  album : Option String
  file_path : String
  duration : Option ℚ
  file_size : Option ℕ
  fingerprint_count : ℕ
deriving DecidableEq

/-- Posting payload pickled into a Redis hash bucket by
`_store_fingerprints_redis` (`src/database.py:165-195`). -/
structure Occurrence where
  song_id : ℕ
  time_offset : ℕ
  anchor_freq : ℕ
  target_freq : ℕ
  time_delta : ℤ
deriving DecidableEq

/-- Combined state of the two stores.  `nextId` is the next SQLite
AUTOINCREMENT rowid; `postings` lists `(hash_value, occurrence)` pairs in
the order they were pushed. -/
structure Database where
  songs : List SongRow
  nextId : ℕ
  postings : List (String × Occurrence)
deriving DecidableEq

/-- Freshly initialised stores (SQLite rowids start at 1). -/
def emptyDatabase : Database := { songs := [], nextId := 1, postings := [] }

/-- SQLite phase of `add_song` (`src/database.py:144-156`): the
`INSERT OR REPLACE INTO songs` statement followed by `commit`.  On a
`file_path` conflict the old row is deleted and the new row is inserted
under a fresh AUTOINCREMENT id (`cursor.lastrowid`), which is returned. -/
def addSongMeta (db : Database) (title artist : String) (album : Option String)
    (filePath : String) (duration : Option ℚ) (fileSize : Option ℕ)
    (fingerprintCount : ℕ) : Database × ℕ :=
  let songId := db.nextId
  let row : SongRow :=
    { id := songId, title := title, artist := artist, album := album,
      file_path := filePath, duration := duration, file_size := fileSize,
      fingerprint_count := fingerprintCount }
  let remaining := db.songs.filter (fun r => r.file_path ≠ filePath)
  ({ db with songs := remaining ++ [row], nextId := songId + 1 }, songId)

/-- `_store_fingerprints_redis` (`src/database.py:165-195`): push one
posting per fingerprint under its hash key. -/
def storeFingerprintsRedis (db : Database) (songId : ℕ)
    (fingerprints : List AudioHash) : Database :=
  { db with postings := db.postings ++ fingerprints.map (fun f =>
      (f.hash_value,
       { song_id := songId, time_offset := f.time_offset, anchor_freq := f.anchor_freq,
         target_freq := f.target_freq, time_delta := f.time_delta })) }

/-- `add_song` (`src/database.py:126-163`): commit the metadata row first,
then (if any fingerprints were produced) commit the postings. -/
def addSong (db : Database) (title artist filePath : String)
    (fingerprints : List AudioHash) (album : Option String) (duration : Option ℚ)
    (fileSize : Option ℕ) : Database × ℕ :=
  let meta := addSongMeta db title artist album filePath duration fileSize
    fingerprints.length
  let db2 := if fingerprints ≠ [] then storeFingerprintsRedis meta.1 meta.2 fingerprints
    else meta.1
  (db2, meta.2)

/-- State reached when ingest fails between the SQLite commit of
`add_song` and the Redis pipeline execution (a failure between "hashes
generated" and "postings committed"): only the metadata phase has run. -/
def addSongCrashBeforePostings (db : Database) (title artist filePath : String)
    (fingerprints : List AudioHash) (album : Option String) (duration : Option ℚ)
    (fileSize : Option ℕ) : Database × ℕ :=
  addSongMeta db title artist album filePath duration fileSize fingerprints.length

/-- `get_song_metadata` (`src/database.py:239-260`). -/
def getSongMetadata (db : Database) (songId : ℕ) : Option SongRow :=
  db.songs.find? (fun r => r.id = songId)

/-- `get_song_by_path` (`src/database.py:262-270`). -/
def getSongByPath (db : Database) (filePath : String) : Option SongRow :=
  db.songs.find? (fun r => r.file_path = filePath)

/-- `remove_song` (`src/database.py:339-372`): delete the metadata row;
the Redis postings are left untouched (lazy cleanup). -/
def removeSong (db : Database) (songId : ℕ) : Database × Bool :=
  match getSongMetadata db songId with
  | none => (db, false)
  | some _ => ({ db with songs := db.songs.filter (fun r => r.id ≠ songId) }, true)

/-- Redis `lrange(hash_key, 0, -1)` after a sequence of `lpush` calls:
the bucket of a hash value, newest first. -/
def bucketFor (db : Database) (hashValue : String) : List Occurrence :=
  ((db.postings.filter (fun p => p.1 = hashValue)).map Prod.snd).reverse

/-- All postings authored for a song (used to state posting-count facts). -/
def postingsForSong (db : Database) (songId : ℕ) : List (String × Occurrence) :=
  db.postings.filter (fun p => p.2.song_id = songId)

/-- Insertion into the `matches` dict of `search_fingerprints`
(`src/database.py:211-230`): append the occurrence to the song's list,
creating the entry on first sight (dict insertion order preserved). -/
def addOccurrence (acc : List (ℕ × List (Occurrence × ℕ))) (sid : ℕ)
    (o : Occurrence × ℕ) : List (ℕ × List (Occurrence × ℕ)) :=
  if acc.any (fun g => g.1 = sid) then
    acc.map (fun g => if g.1 = sid then (g.1, g.2 ++ [o]) else g)
  else acc ++ [(sid, [o])]

/-- `search_fingerprints` (`src/database.py:197-237`): for each query hash
fetch its bucket and record each occurrence, tagged with the query hash's
`time_offset` (`occurrence['query_time']`), grouped by song id. -/
def searchFingerprints (db : Database) (queryHashes : List AudioHash) :
    List (ℕ × List (Occurrence × ℕ)) :=
  queryHashes.foldl (fun acc qh =>
    (bucketFor db qh.hash_value).foldl
      (fun acc occ => addOccurrence acc occ.song_id (occ, qh.time_offset)) acc) []

/-! ### Matcher pipeline (`src/matching.py`) -/

/-- Dataclass `MatchResult`. -/
structure MatchResult where
  song_id : ℕ
  title : String
  artist : String
  album : Option String
  confidence : ℝ
  matching_hashes : ℕ
  total_query_hashes : ℕ
  time_offset : ℤ
  alignment_strength : ℝ

/-- `_analyze_song_match` (`src/matching.py:104-162`). -/
noncomputable def analyzeSongMatch (db : Database) (songId : ℕ)
    (occurrences : List (Occurrence × ℕ)) (totalQueryHashes : ℕ) : Option MatchResult :=
  if occurrences.length < MIN_MATCHING_HASHES then none
  else
    let timeOffsets := occurrences.map (fun o => (o.1.time_offset : ℤ) - (o.2 : ℤ))
    match findBestAlignment timeOffsets with
    | none => none
    | some ba =>
        let confidence := calculateConfidence ba.2 occurrences.length totalQueryHashes
        match getSongMetadata db songId with
        | none => none
        | some md =>
            some { song_id := songId, title := md.title, artist := md.artist,
                   album := md.album, confidence := confidence,
                   matching_hashes := ba.2, total_query_hashes := totalQueryHashes,
                   time_offset := ba.1,
                   alignment_strength := (ba.2 : ℝ) / occurrences.length }

/-- Descending-confidence sort key used by `find_matches`
(`match_results.sort(key=lambda x: x.confidence, reverse=True)`). -/
def confOrder (r s : MatchResult) : Prop := s.confidence ≤ r.confidence

noncomputable instance : DecidableRel confOrder := fun r s =>
  Real.decidableLE s.confidence r.confidence

instance : IsTotal MatchResult confOrder := ⟨fun r s => le_total s.confidence r.confidence⟩

instance : IsRefl MatchResult confOrder := ⟨fun _ => le_refl _⟩

instance : IsTrans MatchResult confOrder := ⟨fun _ _ _ h h' => le_trans h' h⟩

/-- Body of the candidate loop of `find_matches` (`src/matching.py:86-96`):
skip buckets below `minMatches`, analyse the rest, keep results whose
confidence reaches `CONFIDENCE_THRESHOLD`. -/
noncomputable def matchFoldStep (db : Database) (totalQ minMatches : ℕ)
    (acc : List MatchResult) (g : ℕ × List (Occurrence × ℕ)) : List MatchResult :=
  if g.2.length < minMatches then acc
  else
    match analyzeSongMatch db g.1 g.2 totalQ with
    | none => acc
    | some r => if CONFIDENCE_THRESHOLD ≤ r.confidence then acc ++ [r] else acc

/-- `find_matches` (`src/matching.py:60-102`): analyse every candidate
bucket of at least `minMatches` occurrences, keep results whose confidence
reaches `CONFIDENCE_THRESHOLD`, and sort by descending confidence. -/
noncomputable def findMatches (db : Database) (queryHashes : List AudioHash)
    (minMatches : ℕ) : List MatchResult :=
  if queryHashes = [] then []
  else
    let rawMatches := searchFingerprints db queryHashes
    if rawMatches = [] then []
    else
      let results := rawMatches.foldl (matchFoldStep db queryHashes.length minMatches) []
      List.insertionSort confOrder results

/-- `identify_best_match` (`src/matching.py:245-264`): the top-confidence
result of `find_matches` with the default `MIN_MATCHING_HASHES`. -/
noncomputable def identifyBestMatch (db : Database) (queryHashes : List AudioHash) :
    Option MatchResult :=
  (findMatches db queryHashes MIN_MATCHING_HASHES).head?

/-! ### Preprocessing (`src/audio_processing.py:167-208`) -/

/-- `AudioProcessor.preprocess_audio` on a mono signal, parameterised by
the external `scipy.signal.resample_poly` (`resamplePoly up down audio`).
There is no empty-input check: the signal is resampled if the rates differ
and truncated to `MAX_QUERY_DURATION` seconds, nothing else. -/
def preprocessAudio (resamplePoly : ℕ → ℕ → List ℚ → List ℚ)
    (targetSr sr : ℕ) (audio : List ℚ) : List ℚ :=
  let audio1 := if sr ≠ targetSr then
      resamplePoly (targetSr / Nat.gcd sr targetSr) (sr / Nat.gcd sr targetSr) audio
    else audio
  let maxSamples := MAX_QUERY_DURATION * targetSr
  if maxSamples < audio1.length then audio1.take maxSamples else audio1

/-- Error kinds of the spec's resampler/normalizer contract (§4.1). -/
inductive PreprocessError where
  | emptyInput
  | resampleError
deriving DecidableEq

/-- Modelled from the spec: the §4.1 `normalize` contract "fails with
`EmptyInput` if `pcm.len() == 0`".  This error path is missing from
`src/audio_processing.py`; the definition exists only to be compared
against `preprocessAudio`. -/
def specNormalizeEmptyGate (pcm : List ℚ) : Except PreprocessError (List ℚ) :=
  if pcm.length = 0 then Except.error PreprocessError.emptyInput else Except.ok pcm

/-! ### Concrete instance material and claim-statement abbreviations -/

/-- Peak at time `t` (frequency bin 0, amplitude 0), for concrete hash
counting. -/
def peakAt (t : ℕ) : SpectralPeak := { frequency_bin := 0, time_frame := t, amplitude := 0 }

/-- Peaks at consecutive time frames `a, a+1, …, a+len-1`. -/
def tpeaks (a len : ℕ) : List SpectralPeak := (List.range' a len).map peakAt

/-- A 2006-frame run of consecutive peaks: every anchor up to frame 2000
pairs with a full fan of `HASH_FAN_VALUE` targets. -/
def manyPeaks : List SpectralPeak := tpeaks 0 2006

/-- What `_calculate_confidence` actually computes (the claim's formula
with `max(0.5, q/m)` in place of `min(1, q/m)`), together with the `[0,1]`
bounds. -/
def confidenceFormulaSpec (a m q : ℕ) : Prop :=
  calculateConfidence a m q
    = min 1 (4/10 * ((a : ℝ) / (m : ℝ))
        + 3/10 * min 1 (Real.log ((a : ℝ) + 1) / Real.log 20)
        + 2/10 * min 1 ((m : ℝ) / (q : ℝ))
        + 1/10 * (if q < m then max (1/2) ((q : ℝ) / (m : ℝ)) else 1)) ∧
  0 ≤ calculateConfidence a m q ∧ calculateConfidence a m q ≤ 1

/-- Behaviour of a duplicate-path re-ingest: the second `add_song` call is
not rejected — it replaces the row under a fresh id — and across the two
calls the store grows by exactly one row. -/
def reingestBehaviour (db : Database) (t1 a1 t2 a2 p : String) (fp1 fp2 : List AudioHash)
    (al1 al2 : Option String) (d1 d2 : Option ℚ) (fs1 fs2 : Option ℕ) : Prop :=
  (addSong db t1 a1 p fp1 al1 d1 fs1).1.songs.length = db.songs.length + 1 ∧
  (addSong (addSong db t1 a1 p fp1 al1 d1 fs1).1 t2 a2 p fp2 al2 d2 fs2).1.songs.length
    = (addSong db t1 a1 p fp1 al1 d1 fs1).1.songs.length ∧
  (addSong (addSong db t1 a1 p fp1 al1 d1 fs1).1 t2 a2 p fp2 al2 d2 fs2).2 = db.nextId + 1 ∧
  (getSongByPath (addSong (addSong db t1 a1 p fp1 al1 d1 fs1).1 t2 a2 p fp2 al2 d2 fs2).1 p).map
      SongRow.id = some (db.nextId + 1)

/-- Behaviour of an ingest that fails between the metadata commit and the
posting commit: the new metadata row is already visible, while the song
has zero postings. -/
def crashBehaviour (db : Database) (t a p : String) (fp : List AudioHash)
    (al : Option String) (d : Option ℚ) (fs : Option ℕ) : Prop :=
  (addSongCrashBeforePostings db t a p fp al d fs).1.songs.length = db.songs.length + 1 ∧
  (getSongMetadata (addSongCrashBeforePostings db t a p fp al d fs).1
      (addSongCrashBeforePostings db t a p fp al d fs).2).isSome = true ∧
  (addSongCrashBeforePostings db t a p fp al d fs).1.postings = db.postings ∧
  postingsForSong (addSongCrashBeforePostings db t a p fp al d fs).1
      (addSongCrashBeforePostings db t a p fp al d fs).2 = []

/-- Occurrence used in concrete matcher instances: the posting's anchor
time is `k`, the query anchor time is 0. -/
def occAt (sid k : ℕ) : Occurrence × ℕ :=
  ({ song_id := sid, time_offset := k, anchor_freq := 0, target_freq := 0, time_delta := 1 }, 0)

/-! ## Theorems -/

/-- C9 counterexample: on the empty input the preprocessing stage of the
code returns the empty stream unchanged (its embedding is a total function
with no error path), whereas the spec-modelled normalizer contract fails
with `EmptyInput`. -/
theorem C9_counterexample :
    preprocessAudio (fun _ _ l => l) 22050 22050 [] = ([] : List ℚ) ∧
    specNormalizeEmptyGate ([] : List ℚ) = Except.error PreprocessError.emptyInput :=
  ⟨rfl, rfl⟩

/-- C9 (amended): for every empty input, `preprocess_audio` raises no
error and returns the empty stream (whenever the external resampler maps
an empty signal to an empty signal, which holds vacuously when the sample
rates agree). -/
theorem C9_empty_passthrough (resamplePoly : ℕ → ℕ → List ℚ → List ℚ) (targetSr sr : ℕ)
    (h : resamplePoly (targetSr / Nat.gcd sr targetSr) (sr / Nat.gcd sr targetSr) [] = []) :
    preprocessAudio resamplePoly targetSr sr [] = [] := by
  unfold preprocessAudio
  by_cases hsr : sr ≠ targetSr
  · simp [hsr, h]
  · simp [hsr]

/-- Witness for `C9_empty_passthrough` at a concrete resampler and a
44 100 → 22 050 Hz conversion. -/
theorem C9_empty_passthrough_witness :
    (fun (_ _ : ℕ) (l : List ℚ) => l) (22050 / Nat.gcd 44100 22050)
        (44100 / Nat.gcd 44100 22050) [] = ([] : List ℚ) ∧
    preprocessAudio (fun _ _ l => l) 22050 44100 [] = [] :=
  ⟨rfl, C9_empty_passthrough (fun _ _ l => l) 22050 44100 rfl⟩

/-- C5: hash construction is a function of
`(anchor_freq_bin, target_freq_bin, time_delta)` alone — any two peak
pairs agreeing on that triple yield equal `hash_value` (for every digest
function) — and fingerprinting the same preprocessed audio twice yields an
identical hash multiset. -/
theorem C5_hash_determinism :
    (∀ (H : String → String) (a₁ t₁ a₂ t₂ : SpectralPeak),
      a₁.frequency_bin = a₂.frequency_bin → t₁.frequency_bin = t₂.frequency_bin →
      (t₁.time_frame : ℤ) - (a₁.time_frame : ℤ) = (t₂.time_frame : ℤ) - (a₂.time_frame : ℤ) →
      (createHash H a₁ t₁).map AudioHash.hash_value
        = (createHash H a₂ t₂).map AudioHash.hash_value) ∧
    (∀ (H : String → String) (stft : List ℚ → List (List ℚ)) (bands : List (ℕ × ℕ))
      (audio : List ℚ),
      Multiset.ofList (fingerprintAudio H stft bands audio)
        = Multiset.ofList (fingerprintAudio H stft bands audio)) := by
  constructor
  · intro H a1 t1 a2 t2 hf ht hd
    unfold createHash
    rw [hd, hf, ht]
    by_cases hc : HASH_TIME_DELTA_MIN ≤ (t2.time_frame : ℤ) - (a2.time_frame : ℤ) ∧
        (t2.time_frame : ℤ) - (a2.time_frame : ℤ) ≤ HASH_TIME_DELTA_MAX
    · simp only [if_pos hc, Option.map_some']
    · simp only [if_neg hc, Option.map_none']
  · intro H stft bands audio
    rfl

/-- Witness for the first part of `C5_hash_determinism`: two pairs from
different times with the same `(anchor_freq, target_freq, delta)` triple
`(10, 20, 3)`. -/
theorem C5_hash_determinism_witness :
    ((⟨10, 0, 1⟩ : SpectralPeak).frequency_bin = (⟨10, 5, 2⟩ : SpectralPeak).frequency_bin) ∧
    ((⟨20, 3, 1⟩ : SpectralPeak).frequency_bin = (⟨20, 8, 7⟩ : SpectralPeak).frequency_bin) ∧
    (((⟨20, 3, 1⟩ : SpectralPeak).time_frame : ℤ) - ((⟨10, 0, 1⟩ : SpectralPeak).time_frame : ℤ)
      = ((⟨20, 8, 7⟩ : SpectralPeak).time_frame : ℤ)
        - ((⟨10, 5, 2⟩ : SpectralPeak).time_frame : ℤ)) ∧
    (createHash id ⟨10, 0, 1⟩ ⟨20, 3, 1⟩).map AudioHash.hash_value
      = (createHash id ⟨10, 5, 2⟩ ⟨20, 8, 7⟩).map AudioHash.hash_value :=
  ⟨rfl, rfl, by decide, C5_hash_determinism.1 id _ _ _ _ rfl rfl (by decide)⟩

/-- C4 counterexample: at `aligned_count = 0`, `bucket = 4`,
`query_hashes = 1` the code's confidence (whose unique bonus is
`max(0.5, q/m)`) is 1/4, while the claimed formula (unique bonus
`min(1, q/m)`) gives 9/40. -/
theorem C4_counterexample : calculateConfidence 0 4 1 ≠ specConfidence 0 4 1 := by
  unfold calculateConfidence specConfidence
  norm_num [Real.log_one]

/-- C4 (amended): for positive bucket and query sizes the confidence
equals `min(1, 0.4*(a/m) + 0.3*min(1, log(a+1)/log 20) + 0.2*min(1, m/q)
+ 0.1*u)` with `u = max(0.5, q/m)` when `m > q` and `u = 1` otherwise;
the result lies in `[0, 1]` (the code clamps above at 1, and every term is
nonnegative). -/
theorem C4_confidence_code_formula (a m q : ℕ) (hm : 0 < m) (hq : 0 < q) :
    confidenceFormulaSpec a m q := by
  have hcond : ¬(m = 0 ∨ q = 0) := by omega
  have h2 : (0 : ℝ) ≤ min 1 (Real.log ((a : ℝ) + 1) / Real.log 20) := by
    apply le_min (by norm_num)
    apply div_nonneg
    · apply Real.log_nonneg
      have : (0 : ℝ) ≤ (a : ℝ) := Nat.cast_nonneg a
      linarith
    · exact Real.log_nonneg (by norm_num)
  have h1 : (0 : ℝ) ≤ (a : ℝ) / (m : ℝ) := by positivity
  have h3 : (0 : ℝ) ≤ min 1 ((m : ℝ) / (q : ℝ)) := le_min (by norm_num) (by positivity)
  have h4 : (0 : ℝ) ≤ (if q < m then max (1/2) ((q : ℝ) / (m : ℝ)) else (1 : ℝ)) := by
    split
    · exact le_max_of_le_left (by norm_num)
    · norm_num
  refine ⟨?_, ?_, ?_⟩
  · unfold calculateConfidence
    rw [if_neg hcond]
  · unfold calculateConfidence
    rw [if_neg hcond]
    apply le_min (by norm_num)
    have := mul_nonneg (by norm_num : (0:ℝ) ≤ 4/10) h1
    have := mul_nonneg (by norm_num : (0:ℝ) ≤ 3/10) h2
    have := mul_nonneg (by norm_num : (0:ℝ) ≤ 2/10) h3
    have := mul_nonneg (by norm_num : (0:ℝ) ≤ 1/10) h4
    linarith
  · unfold calculateConfidence
    rw [if_neg hcond]
    exact min_le_left _ _

/-- Witness for `C4_confidence_code_formula` at `a = m = q = 1`. -/
theorem C4_confidence_code_formula_witness :
    0 < 1 ∧ 0 < 1 ∧ confidenceFormulaSpec 1 1 1 :=
  ⟨one_pos, one_pos, C4_confidence_code_formula 1 1 1 one_pos one_pos⟩

/-! ### Database helper lemmas -/

theorem addSong_songs (db : Database) (t a p : String) (fp : List AudioHash)
    (al : Option String) (d : Option ℚ) (fs : Option ℕ) :
    (addSong db t a p fp al d fs).1.songs
      = db.songs.filter (fun r => r.file_path ≠ p)
        ++ [{ id := db.nextId, title := t, artist := a, album := al, file_path := p,
              duration := d, file_size := fs, fingerprint_count := fp.length }] := by
  unfold addSong storeFingerprintsRedis addSongMeta
  split <;> rfl

theorem addSong_nextId (db : Database) (t a p : String) (fp : List AudioHash)
    (al : Option String) (d : Option ℚ) (fs : Option ℕ) :
    (addSong db t a p fp al d fs).1.nextId = db.nextId + 1 := by
  unfold addSong storeFingerprintsRedis addSongMeta
  split <;> rfl

theorem addSong_retId (db : Database) (t a p : String) (fp : List AudioHash)
    (al : Option String) (d : Option ℚ) (fs : Option ℕ) :
    (addSong db t a p fp al d fs).2 = db.nextId := rfl

theorem freshPath_filter_eq (db : Database) (p : String)
    (h : getSongByPath db p = none) :
    db.songs.filter (fun r => r.file_path ≠ p) = db.songs := by
  rw [List.filter_eq_self]
  intro r hr
  have hall := List.find?_eq_none.mp h r hr
  simpa using hall

/-- C1 counterexample: ingesting the same file path twice, the second
`add_song` call is not rejected — it returns the fresh song id 2 and the
store holds exactly the replacing row (the original id-1 row is gone). -/
theorem C1_counterexample :
    (addSong (addSong emptyDatabase "Song A" "Artist" "/music/a.mp3" [] none none none).1
        "Song A" "Artist" "/music/a.mp3" [] none none none).2 = 2 ∧
    ((addSong (addSong emptyDatabase "Song A" "Artist" "/music/a.mp3" [] none none none).1
        "Song A" "Artist" "/music/a.mp3" [] none none none).1.songs.map SongRow.id = [2]) ∧
    (addSong (addSong emptyDatabase "Song A" "Artist" "/music/a.mp3" [] none none none).1
        "Song A" "Artist" "/music/a.mp3" [] none none none).1.songs.length = 1 := by
  refine ⟨rfl, ?_, ?_⟩ <;> with_unfolding_all decide

/-- C1 (amended): re-ingest of an already-present `file_path` is not
rejected: `INSERT OR REPLACE` replaces the row under a fresh id, which the
call returns; across the two calls the metadata store still grows by
exactly one row. -/
theorem C1_reingest_replaces (db : Database) (t1 a1 t2 a2 p : String)
    (fp1 fp2 : List AudioHash) (al1 al2 : Option String) (d1 d2 : Option ℚ)
    (fs1 fs2 : Option ℕ) (h : getSongByPath db p = none) :
    reingestBehaviour db t1 a1 t2 a2 p fp1 fp2 al1 al2 d1 d2 fs1 fs2 := by
  have hfilter := freshPath_filter_eq db p h
  have hsongs1 := addSong_songs db t1 a1 p fp1 al1 d1 fs1
  rw [hfilter] at hsongs1
  have hrow1 : (addSong db t1 a1 p fp1 al1 d1 fs1).1.songs.filter
      (fun r => r.file_path ≠ p) = db.songs := by
    rw [hsongs1, List.filter_append, hfilter]
    simp
  have hsongs2 := addSong_songs (addSong db t1 a1 p fp1 al1 d1 fs1).1 t2 a2 p fp2 al2 d2 fs2
  rw [hrow1, addSong_nextId] at hsongs2
  refine ⟨?_, ?_, ?_, ?_⟩
  · rw [hsongs1]
    simp
  · rw [hsongs2, hsongs1]
    simp
  · rw [addSong_retId, addSong_nextId]
  · unfold getSongByPath
    rw [hsongs2, List.find?_append]
    have hnone : db.songs.find? (fun r => r.file_path = p) = none := h
    rw [hnone]
    simp

/-- Witness for `C1_reingest_replaces` on the empty store. -/
theorem C1_reingest_replaces_witness :
    getSongByPath emptyDatabase "/music/a.mp3" = none ∧
    reingestBehaviour emptyDatabase "Song A" "Artist" "Song A2" "Artist2" "/music/a.mp3"
      [] [] none none none none none none :=
  ⟨rfl, C1_reingest_replaces emptyDatabase "Song A" "Artist" "Song A2" "Artist2"
    "/music/a.mp3" [] [] none none none none none none rfl⟩

/-- C2 counterexample: on a fresh store, a simulated failure between the
metadata commit and the posting commit leaves one (not zero) metadata row
for the song, with zero postings — ingest is not atomic. -/
theorem C2_counterexample :
    (addSongCrashBeforePostings emptyDatabase "Song A" "Artist" "/music/a.mp3"
        [⟨"aaaa", 0, 0, 0, 1⟩] none none none).1.songs.length = 1 ∧
    ¬(addSongCrashBeforePostings emptyDatabase "Song A" "Artist" "/music/a.mp3"
        [⟨"aaaa", 0, 0, 0, 1⟩] none none none).1.songs.length = 0 ∧
    (addSongCrashBeforePostings emptyDatabase "Song A" "Artist" "/music/a.mp3"
        [⟨"aaaa", 0, 0, 0, 1⟩] none none none).1.postings = [] := by
  refine ⟨rfl, by with_unfolding_all decide, rfl⟩

/-- C2 (amended): ingest is not atomic.  `add_song` commits the metadata
row before the postings, so a failure between hash generation and posting
commit leaves the new row visible (store grown by one) while the song has
zero postings. -/
theorem C2_crash_not_atomic (db : Database) (t a p : String) (fp : List AudioHash)
    (al : Option String) (d : Option ℚ) (fs : Option ℕ)
    (h : getSongByPath db p = none)
    (hids : ∀ r ∈ db.songs, r.id < db.nextId)
    (hpost : ∀ q ∈ db.postings, q.2.song_id < db.nextId) :
    crashBehaviour db t a p fp al d fs := by
  have hfilter := freshPath_filter_eq db p h
  refine ⟨?_, ?_, rfl, ?_⟩
  · unfold addSongCrashBeforePostings addSongMeta
    simp only [hfilter]
    simp
  · unfold addSongCrashBeforePostings addSongMeta getSongMetadata
    simp only [hfilter, List.find?_append]
    have hnone : db.songs.find? (fun r => r.id = db.nextId) = none := by
      rw [List.find?_eq_none]
      intro r hr
      have := hids r hr
      simp
      omega
    rw [hnone]
    simp
  · unfold addSongCrashBeforePostings addSongMeta postingsForSong
    simp only []
    rw [List.filter_eq_nil_iff]
    intro q hq
    have := hpost q hq
    simp
    omega

/-- Witness for `C2_crash_not_atomic` on the empty store with one
generated hash. -/
theorem C2_crash_not_atomic_witness :
    getSongByPath emptyDatabase "/music/a.mp3" = none ∧
    crashBehaviour emptyDatabase "Song A" "Artist" "/music/a.mp3"
      [⟨"aaaa", 0, 0, 0, 1⟩] none none none :=
  ⟨rfl, C2_crash_not_atomic emptyDatabase "Song A" "Artist" "/music/a.mp3"
    [⟨"aaaa", 0, 0, 0, 1⟩] none none none rfl (by simp [emptyDatabase])
    (by simp [emptyDatabase])⟩

/-! ### Alignment-gate lemmas -/

theorem firstOccAux_length_le (l : List ℤ) :
    ∀ acc : List ℤ, acc.length ≤ (firstOccAux acc l).length := by
  induction l with
  | nil => intro acc; simp [firstOccAux]
  | cons x xs ih =>
      intro acc
      unfold firstOccAux
      split
      · exact ih acc
      · exact le_trans (by simp) (ih (x :: acc))

theorem firstOcc_ne_nil (l : List ℤ) (h : l ≠ []) : firstOcc l ≠ [] := by
  cases l with
  | nil => exact absurd rfl h
  | cons x xs =>
      unfold firstOcc firstOccAux
      rw [if_neg (List.not_mem_nil x)]
      intro hnil
      have hlen := firstOccAux_length_le xs [x]
      rw [hnil] at hlen
      simp at hlen

/-- C7: the adaptive alignment gate accepts a candidate exactly when
`aligned_count / |bucket| ≥ threshold`, with `threshold = 0.05` when the
unique-offset share is below `0.3` and `0.3` otherwise; and a candidate
whose gate rejects yields no match result. -/
theorem C7_adaptive_gate :
    (∀ timeOffsets : List ℤ, timeOffsets ≠ [] → gateSpec timeOffsets) ∧
    (∀ (db : Database) (songId : ℕ) (occurrences : List (Occurrence × ℕ))
      (totalQueryHashes : ℕ),
      findBestAlignment (occurrences.map fun o => (o.1.time_offset : ℤ) - (o.2 : ℤ)) = none →
      analyzeSongMatch db songId occurrences totalQueryHashes = none) := by
  constructor
  · intro offs h
    cases hmc : mostCommon1 (offs.map quantizeOffset) with
    | none =>
        exfalso
        have hne : offs.map quantizeOffset ≠ [] := by simpa using h
        unfold mostCommon1 at hmc
        cases hfo : firstOcc (offs.map quantizeOffset) with
        | nil => exact firstOcc_ne_nil _ hne hfo
        | cons k ks => rw [hfo] at hmc; simp at hmc
    | some bb =>
        obtain ⟨bo, bc⟩ := bb
        have halc : alignedCountOf offs = bc := by
          unfold alignedCountOf
          rw [hmc]
          rfl
        have hfb : findBestAlignment offs
            = if (bc : ℚ) / (offs.length : ℚ) < gateThreshold offs then none
              else some (bo, bc) := by
          simp only [findBestAlignment, if_neg h]
          rw [hmc]
          rfl
        unfold gateSpec
        rw [hfb, halc]
        by_cases hlt : (bc : ℚ) / (offs.length : ℚ) < gateThreshold offs
        · rw [if_pos hlt]
          simp only [Option.isSome_none, Bool.false_eq_true, false_iff, ge_iff_le, not_le]
          exact hlt
        · rw [if_neg hlt]
          simp only [Option.isSome_some, true_iff, ge_iff_le]
          exact not_lt.mp hlt
  · intro db sid occs tq halign
    unfold analyzeSongMatch
    split
    · rfl
    · simp only [halign]

/-- Witness for `C7_adaptive_gate`: a perfectly aligned 3-occurrence
bucket satisfies the gate equivalence, and a 4-occurrence bucket with
spread offsets (0, 100, 200, 300) fails the gate and yields no match. -/
theorem C7_adaptive_gate_witness :
    ([0, 0, 0] : List ℤ) ≠ [] ∧ gateSpec [0, 0, 0] ∧
    findBestAlignment ([occAt 7 0, occAt 7 100, occAt 7 200, occAt 7 300].map
        fun o => (o.1.time_offset : ℤ) - (o.2 : ℤ)) = none ∧
    analyzeSongMatch emptyDatabase 7 [occAt 7 0, occAt 7 100, occAt 7 200, occAt 7 300] 4
      = none :=
  ⟨by simp, C7_adaptive_gate.1 [0, 0, 0] (by simp),
   by with_unfolding_all decide,
   C7_adaptive_gate.2 emptyDatabase 7 _ 4 (by with_unfolding_all decide)⟩

/-! ### Lazy-cleanup lemmas -/

theorem analyzeSongMatch_some (db : Database) (sid : ℕ) (occs : List (Occurrence × ℕ))
    (tq : ℕ) (r : MatchResult) (h : analyzeSongMatch db sid occs tq = some r) :
    r.song_id = sid ∧ (getSongMetadata db sid).isSome = true := by
  unfold analyzeSongMatch at h
  split at h
  · exact absurd h (by simp)
  · cases hba : findBestAlignment (occs.map fun o => (o.1.time_offset : ℤ) - (o.2 : ℤ)) with
    | none => simp [hba] at h
    | some ba =>
        simp only [hba] at h
        cases hmd : getSongMetadata db sid with
        | none => simp [hmd] at h
        | some md =>
            simp only [hmd, Option.some_inj] at h
            subst h
            exact ⟨rfl, rfl⟩

theorem mem_matchFold (db : Database) (n mm : ℕ) :
    ∀ (groups : List (ℕ × List (Occurrence × ℕ))) (acc : List MatchResult)
      (r : MatchResult), r ∈ groups.foldl (matchFoldStep db n mm) acc →
      r ∈ acc ∨ ∃ sid occs, analyzeSongMatch db sid occs n = some r := by
  intro groups
  induction groups with
  | nil => exact fun acc r h => Or.inl h
  | cons g gs ih =>
      intro acc r h
      simp only [List.foldl_cons] at h
      rcases ih _ r h with hin | hex
      · unfold matchFoldStep at hin
        split at hin
        · exact Or.inl hin
        · split at hin
          · exact Or.inl hin
          · next r' heq =>
              split at hin
              · rcases List.mem_append.mp hin with h1 | h2
                · exact Or.inl h1
                · right
                  refine ⟨g.1, g.2, ?_⟩
                  have hrr : r = r' := List.mem_singleton.mp h2
                  rw [heq, hrr]
              · exact Or.inl hin
      · exact Or.inr hex

theorem mem_findMatches_metadata (db : Database) (q : List AudioHash) (mm : ℕ)
    (r : MatchResult) (h : r ∈ findMatches db q mm) :
    (getSongMetadata db r.song_id).isSome = true := by
  simp only [findMatches] at h
  split at h
  · exact absurd h (by simp)
  · split at h
    · exact absurd h (by simp)
    · have h2 : r ∈ (searchFingerprints db q).foldl (matchFoldStep db q.length mm) [] :=
        (List.perm_insertionSort confOrder _).mem_iff.mp h
      rcases mem_matchFold db q.length mm _ _ r h2 with h3 | ⟨sid, occs, hsome⟩
      · exact absurd h3 (by simp)
      · obtain ⟨hid, hmeta⟩ := analyzeSongMatch_some db sid occs q.length r hsome
        rw [hid]
        exact hmeta

theorem removeSong_postings (db : Database) (sid : ℕ) :
    (removeSong db sid).1.postings = db.postings := by
  unfold removeSong
  split <;> rfl

theorem removeSong_metadata_self (db : Database) (sid : ℕ) :
    getSongMetadata (removeSong db sid).1 sid = none := by
  unfold removeSong
  split
  · next hm => exact hm
  · unfold getSongMetadata
    rw [List.find?_eq_none]
    intro r hr
    have := (List.mem_filter.mp hr).2
    simp only [decide_eq_true_eq] at this ⊢
    exact fun hc => this (by simp [hc])

/-- C8: after `remove_song`, the postings index is untouched (lazy
cleanup) and the song's metadata row is gone; every result of a
subsequent `find_matches` — in particular the best match that `identify`
returns — has a live metadata row, hence is never the removed song. -/
theorem C8_removed_song_never_returned (db : Database) (songId : ℕ)
    (queryHashes : List AudioHash) :
    ((findMatches (removeSong db songId).1 queryHashes MIN_MATCHING_HASHES).all
        fun r => r.song_id ≠ songId) = true ∧
    (removeSong db songId).1.postings = db.postings ∧
    getSongMetadata (removeSong db songId).1 songId = none ∧
    ((identifyBestMatch (removeSong db songId).1 queryHashes).all
        fun r => r.song_id ≠ songId) = true := by
  have hmeta : getSongMetadata (removeSong db songId).1 songId = none :=
    removeSong_metadata_self db songId
  have hmain : ∀ r ∈ findMatches (removeSong db songId).1 queryHashes MIN_MATCHING_HASHES,
      r.song_id ≠ songId := by
    intro r hr heq
    have hsome := mem_findMatches_metadata (removeSong db songId).1 queryHashes
      MIN_MATCHING_HASHES r hr
    rw [heq, hmeta] at hsome
    simp at hsome
  refine ⟨?_, removeSong_postings db songId, hmeta, ?_⟩
  · rw [List.all_eq_true]
    intro r hr
    exact decide_eq_true (hmain r hr)
  · unfold identifyBestMatch
    cases hh : (findMatches (removeSong db songId).1 queryHashes MIN_MATCHING_HASHES).head? with
    | none => rfl
    | some r =>
        have hr : r ∈ findMatches (removeSong db songId).1 queryHashes MIN_MATCHING_HASHES :=
          List.mem_of_mem_head? hh
        simp only [Option.all_some]
        exact decide_eq_true (hmain r hr)

/-! ### Hash-count lemmas (no cap in `generate_hashes`) -/

theorem tpeaks_sorted (a len : ℕ) : List.Sorted timeOrder (tpeaks a len) := by
  unfold tpeaks List.Sorted
  rw [List.pairwise_map]
  exact (List.pairwise_lt_range' a len).imp (fun h => le_of_lt h)

theorem tpeaks_cons (a m : ℕ) : tpeaks a (m + 1) = peakAt a :: tpeaks (a + 1) m := by
  unfold tpeaks
  rw [List.range'_succ, List.map_cons]

theorem ftpa_step (a k nt : ℕ) (rest : List SpectralPeak)
    (h1 : 1 ≤ k) (h2 : k ≤ 200) (h3 : nt + 1 < 5) :
    findTargetPeaksAux a 5 (peakAt (a + k) :: rest) nt
      = peakAt (a + k) :: findTargetPeaksAux a 5 rest (nt + 1) := by
  have hA : ¬((((a + k : ℕ) : ℤ) - (a : ℤ)) < HASH_TIME_DELTA_MIN) := by
    unfold HASH_TIME_DELTA_MIN
    omega
  have hB : ¬(HASH_TIME_DELTA_MAX < (((a + k : ℕ) : ℤ) - (a : ℤ))) := by
    unfold HASH_TIME_DELTA_MAX
    omega
  have hC : ¬(5 ≤ nt + 1) := by omega
  simp only [findTargetPeaksAux, peakAt]
  rw [if_neg hA, if_neg hB, if_neg hC]

theorem ftpa_last (a : ℕ) (rest : List SpectralPeak) :
    findTargetPeaksAux a 5 (peakAt (a + 5) :: rest) 4 = [peakAt (a + 5)] := by
  have hA : ¬((((a + 5 : ℕ) : ℤ) - (a : ℤ)) < HASH_TIME_DELTA_MIN) := by
    unfold HASH_TIME_DELTA_MIN
    omega
  have hB : ¬(HASH_TIME_DELTA_MAX < (((a + 5 : ℕ) : ℤ) - (a : ℤ))) := by
    unfold HASH_TIME_DELTA_MAX
    omega
  simp only [findTargetPeaksAux, peakAt]
  rw [if_neg hA, if_neg hB, if_pos (by omega : 5 ≤ 4 + 1)]

theorem targets_full (a m : ℕ) :
    findTargetPeaks (peakAt a) (tpeaks (a + 1) (m + 5)) 5
      = [peakAt (a + 1), peakAt (a + 2), peakAt (a + 3), peakAt (a + 4), peakAt (a + 5)] := by
  have hexp : tpeaks (a + 1) (m + 5)
      = peakAt (a + 1) :: peakAt (a + 2) :: peakAt (a + 3) :: peakAt (a + 4)
        :: peakAt (a + 5) :: tpeaks (a + 6) m := by
    rw [tpeaks_cons, tpeaks_cons, tpeaks_cons, tpeaks_cons, tpeaks_cons]
  unfold findTargetPeaks
  rw [hexp]
  show findTargetPeaksAux a 5 _ 0 = _
  rw [ftpa_step a 1 0 _ (by omega) (by omega) (by omega),
      ftpa_step a 2 1 _ (by omega) (by omega) (by omega),
      ftpa_step a 3 2 _ (by omega) (by omega) (by omega),
      ftpa_step a 4 3 _ (by omega) (by omega) (by omega),
      ftpa_last a _]

theorem createHash_peakAt (H : String → String) (a k : ℕ) (h1 : 1 ≤ k) (h2 : k ≤ 200) :
    (createHash H (peakAt a) (peakAt (a + k))).isSome = true := by
  unfold createHash peakAt
  rw [if_pos]
  · rfl
  · constructor
    · unfold HASH_TIME_DELTA_MIN
      dsimp only
      omega
    · unfold HASH_TIME_DELTA_MAX
      dsimp only
      omega

theorem anchor_block_length (H : String → String) (a m : ℕ) :
    ((findTargetPeaks (peakAt a) (tpeaks (a + 1) (m + 5)) 5).filterMap
        (createHash H (peakAt a))).length = 5 := by
  rw [targets_full]
  obtain ⟨h1, e1⟩ := Option.isSome_iff_exists.mp (createHash_peakAt H a 1 (by omega) (by omega))
  obtain ⟨h2, e2⟩ := Option.isSome_iff_exists.mp (createHash_peakAt H a 2 (by omega) (by omega))
  obtain ⟨h3, e3⟩ := Option.isSome_iff_exists.mp (createHash_peakAt H a 3 (by omega) (by omega))
  obtain ⟨h4, e4⟩ := Option.isSome_iff_exists.mp (createHash_peakAt H a 4 (by omega) (by omega))
  obtain ⟨h5, e5⟩ := Option.isSome_iff_exists.mp (createHash_peakAt H a 5 (by omega) (by omega))
  simp [List.filterMap, e1, e2, e3, e4, e5]

theorem genHashesAux_cons (H : String → String) (anchor : SpectralPeak)
    (rest : List SpectralPeak) :
    genHashesAux H (anchor :: rest)
      = ((findTargetPeaks anchor rest HASH_FAN_VALUE).filterMap (createHash H anchor))
        ++ genHashesAux H rest := rfl

theorem genAux_length_ge (H : String → String) :
    ∀ m a : ℕ, 5 * m ≤ (genHashesAux H (tpeaks a (m + 5))).length := by
  intro m
  induction m with
  | zero => intro a; simp
  | succ m ih =>
      intro a
      have hexp : tpeaks a (m + 1 + 5) = peakAt a :: tpeaks (a + 1) (m + 5) := by
        rw [show m + 1 + 5 = (m + 5) + 1 by omega, tpeaks_cons]
      rw [hexp, genHashesAux_cons, List.length_append,
        show HASH_FAN_VALUE = 5 from rfl]
      have hblock := anchor_block_length H a m
      have hrec := ih (a + 1)
      omega

/-- C3: `generate_hashes` applies no cap.  On 2006 consecutive-frame peaks
it retains more than `MAX_FINGERPRINTS_PER_TRACK = 10000` hash records
(at least 5 per anchor for the first 2001 anchors), for every digest
function; `MAX_FINGERPRINTS_PER_TRACK` is imported by the fingerprinting
module but never used. -/
theorem C3_no_cap (H : String → String) :
    MAX_FINGERPRINTS_PER_TRACK < (generateHashes H manyPeaks).length := by
  unfold generateHashes manyPeaks
  rw [(tpeaks_sorted 0 2006).insertionSort_eq]
  have h := genAux_length_ge H 2001 0
  norm_num at h
  unfold MAX_FINGERPRINTS_PER_TRACK
  omega

/-! ### Peak-picker lemmas: local maxima are interior and ascending -/

theorem plateauLen_le (x : List ℚ) (v : ℚ) (iMax : ℕ) :
    ∀ fuel j, j ≤ iMax → j + plateauLen x v iMax fuel j ≤ iMax := by
  intro fuel
  induction fuel with
  | zero => intro j hj; simpa [plateauLen] using hj
  | succ fuel ih =>
      intro j hj
      unfold plateauLen
      split
      · next hc =>
          have := ih (j + 1) (by omega)
          omega
      · omega

theorem localMaximaAux_mem_bounds (x : List ℚ) :
    ∀ fuel i m, m ∈ localMaximaAux x fuel i → 1 ≤ i → i ≤ m ∧ m + 2 ≤ x.length := by
  intro fuel
  induction fuel with
  | zero => intro i m hm _; simp [localMaximaAux] at hm
  | succ fuel ih =>
      intro i m hm hi
      unfold localMaximaAux at hm
      split at hm
      · next hlen =>
          split at hm
          · next hrise =>
              split at hm
              · next hfall =>
                  have hplat := plateauLen_le x (x.getD i 0) (x.length - 1)
                    (x.length - 1) (i + 1) (by omega)
                  rcases List.mem_cons.mp hm with hhead | htail
                  · subst hhead
                    constructor <;> omega
                  · have := ih _ m htail (by omega)
                    constructor <;> omega
              · have := ih _ m hm (by omega)
                omega
          · have := ih _ m hm (by omega)
            omega
      · simp at hm

theorem localMaximaAux_pairwise (x : List ℚ) :
    ∀ fuel i, 1 ≤ i → List.Pairwise (· < ·) (localMaximaAux x fuel i) := by
  intro fuel
  induction fuel with
  | zero => intro i _; simp [localMaximaAux]
  | succ fuel ih =>
      intro i hi
      unfold localMaximaAux
      split
      · next hlen =>
          split
          · next hrise =>
              split
              · next hfall =>
                  refine List.Pairwise.cons ?_ (ih _ (by omega))
                  intro m hm
                  have hb := localMaximaAux_mem_bounds x fuel _ m hm (by omega)
                  have hplat := plateauLen_le x (x.getD i 0) (x.length - 1)
                    (x.length - 1) (i + 1) (by omega)
                  omega
              · exact ih _ (by omega)
          · exact ih _ (by omega)
      · simp

theorem localMaxima_mem_bounds (x : List ℚ) :
    ∀ m ∈ localMaxima x, 1 ≤ m ∧ m + 2 ≤ x.length := by
  intro m hm
  have := localMaximaAux_mem_bounds x x.length 1 m hm le_rfl
  omega

theorem localMaxima_pairwise (x : List ℚ) : List.Pairwise (· < ·) (localMaxima x) :=
  localMaximaAux_pairwise x x.length 1 le_rfl

theorem heightFiltered_subset (x : List ℚ) : heightFiltered x ⊆ localMaxima x := by
  intro a ha
  exact (List.mem_filter.mp ha).1

theorem heightFiltered_pairwise (x : List ℚ) :
    List.Pairwise (· < ·) (heightFiltered x) :=
  (localMaxima_pairwise x).filter _

/-! ### Distance-filter lemmas -/

theorem keepFold_superset (dist : ℕ) :
    ∀ todo kept, kept ⊆ keepFold dist kept todo := by
  intro todo
  induction todo with
  | nil => intro kept a ha; simpa [keepFold] using ha
  | cons p rest ih =>
      intro kept
      unfold keepFold
      split
      · exact ih kept
      · exact fun a ha => ih (p :: kept) (List.mem_cons_of_mem p ha)

theorem head_mem_keepFold (dist : ℕ) (p : ℕ) (rest : List ℕ) :
    p ∈ keepFold dist [] (p :: rest) := by
  unfold keepFold
  rw [if_neg (by simp)]
  exact keepFold_superset dist rest [p] (List.mem_singleton.mpr rfl)

theorem selectByDistance_subset (x : List ℚ) (cands : List ℕ) (dist : ℕ) :
    selectByDistance x cands dist ⊆ cands := by
  intro a ha
  exact (List.mem_filter.mp ha).1

theorem selectByDistance_pairwise (x : List ℚ) (cands : List ℕ) (dist : ℕ)
    (h : List.Pairwise (· < ·) cands) :
    List.Pairwise (· < ·) (selectByDistance x cands dist) := h.filter _

theorem selectByDistance_max_mem (x : List ℚ) (cands : List ℕ) (dist : ℕ)
    (h : cands ≠ []) :
    ∃ p ∈ selectByDistance x cands dist, ∀ q ∈ cands, x.getD q 0 ≤ x.getD p 0 := by
  cases hs : List.insertionSort (prioRel x) cands with
  | nil =>
      exfalso
      have hperm := List.perm_insertionSort (prioRel x) cands
      rw [hs] at hperm
      exact h hperm.nil_eq.symm
  | cons p rest =>
      have hperm := List.perm_insertionSort (prioRel x) cands
      rw [hs] at hperm
      have hp_cands : p ∈ cands := hperm.mem_iff.mp (List.mem_cons_self p rest)
      have hsorted := List.sorted_insertionSort (prioRel x) cands
      rw [hs] at hsorted
      have hdom : ∀ q ∈ cands, x.getD q 0 ≤ x.getD p 0 := by
        intro q hq
        rcases List.mem_cons.mp (hperm.mem_iff.mpr hq) with rfl | hq'
        · exact le_refl _
        · rcases (List.sorted_cons.mp hsorted).1 q hq' with hlt | ⟨heq, _⟩
          · exact le_of_lt hlt
          · exact le_of_eq heq.symm
      refine ⟨p, ?_, hdom⟩
      unfold selectByDistance
      rw [hs]
      exact List.mem_filter.mpr ⟨hp_cands, decide_eq_true (head_mem_keepFold dist p rest)⟩

/-! ### np.argmax lemmas: first index of the maximum -/

theorem argmaxAux_spec (l : List ℚ) :
    ∀ (vs : List ℚ) (i best : ℕ) (bv : ℚ),
      i + vs.length = l.length →
      (∀ k, i ≤ k → k < l.length → l.getD k 0 = vs.getD (k - i) 0) →
      best < i →
      l.getD best 0 = bv →
      (∀ k, k < i → l.getD k 0 ≤ bv) →
      (∀ k, k < best → l.getD k 0 < bv) →
      argmaxAux vs i best bv < l.length ∧
      (∀ k, k < l.length → l.getD k 0 ≤ l.getD (argmaxAux vs i best bv) 0) ∧
      (∀ k, k < argmaxAux vs i best bv → l.getD k 0 < l.getD (argmaxAux vs i best bv) 0) := by
  intro vs
  induction vs with
  | nil =>
      intro i best bv hlen htr hbi hbv hle hlt
      simp only [List.length_nil, Nat.add_zero] at hlen
      unfold argmaxAux
      subst hbv
      exact ⟨by omega, fun k hk => hle k (by omega), hlt⟩
  | cons v vs ih =>
      intro i best bv hlen htr hbi hbv hle hlt
      have hil : i < l.length := by simp at hlen; omega
      have hv : l.getD i 0 = v := by
        have := htr i le_rfl hil
        simpa using this
      have htr' : ∀ k, i + 1 ≤ k → k < l.length → l.getD k 0 = vs.getD (k - (i + 1)) 0 := by
        intro k hk hkl
        have h1 := htr k (by omega) hkl
        have h2 : k - i = (k - (i + 1)) + 1 := by omega
        rw [h1, h2]
        simp
      unfold argmaxAux
      split
      · next hbvv =>
          apply ih (i + 1) i v
          · simp at hlen ⊢; omega
          · exact htr'
          · omega
          · exact hv
          · intro k hk
            rcases Nat.lt_succ_iff_lt_or_eq.mp hk with hk' | rfl
            · exact le_of_lt (lt_of_le_of_lt (hle k hk') hbvv)
            · exact le_of_eq hv
          · intro k hk
            exact lt_of_le_of_lt (hle k hk) hbvv
      · next hbvv =>
          apply ih (i + 1) best bv
          · simp at hlen ⊢; omega
          · exact htr'
          · omega
          · exact hbv
          · intro k hk
            rcases Nat.lt_succ_iff_lt_or_eq.mp hk with hk' | rfl
            · exact hle k hk'
            · rw [hv]; exact not_lt.mp hbvv
          · exact hlt

theorem argmaxIdx_spec (l : List ℚ) (h : l ≠ []) :
    argmaxIdx l < l.length ∧
    (∀ k, k < l.length → l.getD k 0 ≤ l.getD (argmaxIdx l) 0) ∧
    (∀ k, k < argmaxIdx l → l.getD k 0 < l.getD (argmaxIdx l) 0) := by
  cases l with
  | nil => exact absurd rfl h
  | cons v vs =>
      have := argmaxAux_spec (v :: vs) vs 1 0 v (by simp; omega)
        (fun k hk hkl => by
          have h2 : k = (k - 1) + 1 := by omega
          rw [h2]
          simp)
        (by omega) (by simp)
        (fun k hk => by
          have : k = 0 := by omega
          subst this
          simp)
        (fun k hk => by omega)
      simpa [argmaxIdx] using this

theorem getD_map_lt (f : ℕ → ℚ) :
    ∀ (l : List ℕ) (n : ℕ), n < l.length → (l.map f).getD n 0 = f (l.getD n 0) := by
  intro l
  induction l with
  | nil => intro n hn; simp at hn
  | cons a l ih =>
      intro n hn
      cases n with
      | zero => simp
      | succ n => simpa using ih n (by simpa using hn)

theorem getD_mem_of_lt (l : List ℕ) (n : ℕ) (hn : n < l.length) : l.getD n 0 ∈ l := by
  rw [List.getD_eq_getElem l 0 hn]
  exact List.getElem_mem hn

/-! ### Column-level peak characterisation -/

theorem findPeaksInColumn_some_shape (col : List ℚ) (freqOffset t : ℕ) (p : SpectralPeak)
    (h : findPeaksInColumn col freqOffset t = some p) :
    p.time_frame = t ∧ ∃ j ∈ findPeaksIndices col, p.frequency_bin = j + freqOffset := by
  simp only [findPeaksInColumn] at h
  split at h
  · exact absurd h (by simp)
  · next hne =>
      rw [Option.some_inj] at h
      subst h
      refine ⟨rfl, _, ?_, rfl⟩
      have hamps_ne : (findPeaksIndices col).map (fun j => col.getD j 0) ≠ [] := by
        simpa using hne
      have hst := (argmaxIdx_spec _ hamps_ne).1
      rw [List.length_map] at hst
      exact getD_mem_of_lt _ _ hst

theorem findPeaksInColumn_spec (col : List ℚ) (freqOffset t : ℕ)
    (h : heightFiltered col ≠ []) :
    ∃ p, findPeaksInColumn col freqOffset t = some p ∧ p.time_frame = t ∧
      ∃ j ∈ findPeaksIndices col,
        p.frequency_bin = j + freqOffset ∧ p.amplitude = col.getD j 0 ∧
        (∀ k ∈ heightFiltered col, col.getD k 0 ≤ p.amplitude) ∧
        (∀ k ∈ findPeaksIndices col, k < j → col.getD k 0 < p.amplitude) := by
  obtain ⟨pmax, hpmem, hdom⟩ :=
    selectByDistance_max_mem col (heightFiltered col) PEAK_NEIGHBORHOOD_SIZE h
  have hpmem' : pmax ∈ findPeaksIndices col := hpmem
  have hsne : findPeaksIndices col ≠ [] := by
    intro h0
    rw [h0] at hpmem'
    exact List.not_mem_nil pmax hpmem'
  have hamps_ne : (findPeaksIndices col).map (fun j => col.getD j 0) ≠ [] := by
    simpa using hsne
  obtain ⟨hst, hmax, hfirst⟩ := argmaxIdx_spec _ hamps_ne
  have hstlen : argmaxIdx ((findPeaksIndices col).map (fun j => col.getD j 0))
      < (findPeaksIndices col).length := by
    rw [List.length_map] at hst
    exact hst
  have hj_mem : (findPeaksIndices col).getD
      (argmaxIdx ((findPeaksIndices col).map (fun j => col.getD j 0))) 0
      ∈ findPeaksIndices col := getD_mem_of_lt _ _ hstlen
  have hampj : ((findPeaksIndices col).map (fun j => col.getD j 0)).getD
      (argmaxIdx ((findPeaksIndices col).map (fun j => col.getD j 0))) 0
      = col.getD ((findPeaksIndices col).getD
          (argmaxIdx ((findPeaksIndices col).map (fun j => col.getD j 0))) 0) 0 :=
    getD_map_lt _ _ _ hstlen
  have hpw : List.Pairwise (· < ·) (findPeaksIndices col) :=
    selectByDistance_pairwise col _ _ (heightFiltered_pairwise col)
  refine ⟨⟨(findPeaksIndices col).getD
      (argmaxIdx ((findPeaksIndices col).map (fun j => col.getD j 0))) 0 + freqOffset, t,
      ((findPeaksIndices col).map (fun j => col.getD j 0)).getD
        (argmaxIdx ((findPeaksIndices col).map (fun j => col.getD j 0))) 0⟩,
    ?_, rfl, _, hj_mem, rfl, hampj, ?_, ?_⟩
  · simp only [findPeaksInColumn]
    rw [if_neg hsne]
  · -- the emitted amplitude dominates every height-passing local maximum
    intro k hk
    obtain ⟨⟨pos, hpos⟩, hget⟩ := List.mem_iff_get.mp hpmem'
    have hposm : pos < ((findPeaksIndices col).map (fun j => col.getD j 0)).length := by
      rw [List.length_map]
      exact hpos
    have h1 : ((findPeaksIndices col).map (fun j => col.getD j 0)).getD pos 0
        = col.getD pmax 0 := by
      rw [getD_map_lt _ _ _ hpos]
      congr 1
      rw [List.getD_eq_getElem _ _ hpos, ← hget]
      simp [List.get_eq_getElem]
    have h2 := hmax pos hposm
    rw [h1] at h2
    exact le_trans (hdom k hk) h2
  · -- first maximum: every smaller surviving bin has strictly smaller amplitude
    intro k hk hklt
    obtain ⟨⟨posk, hposk⟩, hgetk⟩ := List.mem_iff_get.mp hk
    have hjval : (findPeaksIndices col).get
        ⟨argmaxIdx ((findPeaksIndices col).map (fun j => col.getD j 0)), hstlen⟩
        = (findPeaksIndices col).getD
            (argmaxIdx ((findPeaksIndices col).map (fun j => col.getD j 0))) 0 := by
      rw [List.getD_eq_getElem _ _ hstlen]
      simp [List.get_eq_getElem]
    have hposlt : posk < argmaxIdx ((findPeaksIndices col).map (fun j => col.getD j 0)) := by
      by_contra hcon
      push_neg at hcon
      rcases Nat.lt_or_ge (argmaxIdx ((findPeaksIndices col).map (fun j => col.getD j 0)))
          posk with hlt2 | hge
      · have := List.pairwise_iff_get.mp hpw
          ⟨argmaxIdx ((findPeaksIndices col).map (fun j => col.getD j 0)), hstlen⟩
          ⟨posk, hposk⟩ hlt2
        rw [hjval, hgetk] at this
        omega
      · have heqp : posk = argmaxIdx ((findPeaksIndices col).map (fun j => col.getD j 0)) := by
          omega
        subst heqp
        rw [hjval] at hgetk
        omega
    have h3 := hfirst posk hposlt
    have h4 : ((findPeaksIndices col).map (fun j => col.getD j 0)).getD posk 0
        = col.getD k 0 := by
      rw [getD_map_lt _ _ _ hposk]
      congr 1
      rw [List.getD_eq_getElem _ _ hposk, ← hgetk]
      simp [List.get_eq_getElem]
    rw [h4] at h3
    exact h3

/-! ### Band-level lemmas -/

theorem pairwise_enumFrom_fst {α : Type} :
    ∀ (l : List α) (n : ℕ), List.Pairwise (fun a b => a.1 < b.1) (List.enumFrom n l) := by
  intro l
  induction l with
  | nil => intro n; simp
  | cons x xs ih =>
      intro n
      refine List.Pairwise.cons ?_ (ih (n + 1))
      intro b hb
      have := List.mem_enumFrom hb
      omega

theorem findPeaksInBand_pairwise_time (bs : List (List ℚ)) (off : ℕ) :
    List.Pairwise (fun p q => p.time_frame < q.time_frame) (findPeaksInBand bs off) := by
  unfold findPeaksInBand
  refine List.Pairwise.filterMap _ ?_ (pairwise_enumFrom_fst bs 0)
  intro a a' hR p hp q hq
  have h1 := (findPeaksInColumn_some_shape a.2 off a.1 p (by simpa using hp)).1
  have h2 := (findPeaksInColumn_some_shape a'.2 off a'.1 q (by simpa using hq)).1
  rw [h1, h2]
  exact hR

/-- C6 counterexample: on the single-frame band column `[0, 5, 0, 5, 0]`
(offset 0), bins 1 and 3 are both local maxima above the floor with the
same amplitude 5 — a tie — yet the emitted peak has frequency bin 3, not
the lowest tied bin 1: the distance filter drops the lower of two tied
maxima within `PEAK_NEIGHBORHOOD_SIZE`, keeping the higher bin. -/
theorem C6_counterexample :
    heightFiltered [0, 5, 0, 5, 0] = [1, 3] ∧
    ([0, 5, 0, 5, 0] : List ℚ).getD 1 0 = 5 ∧
    ([0, 5, 0, 5, 0] : List ℚ).getD 3 0 = 5 ∧
    findPeaksInBand [[0, 5, 0, 5, 0]] 0 = [⟨3, 0, 5⟩] ∧
    (3 : ℕ) ≠ 1 := by
  refine ⟨?_, ?_, ?_, ?_, ?_⟩ <;> with_unfolding_all decide

/-- C6 (amended): per band the peak times are strictly increasing (at
most one peak per band and frame); whenever the column has local maxima
at or above `MIN_PEAK_AMPLITUDE`, exactly one peak is emitted, carrying
the greatest amplitude among them, at the lowest frequency bin among the
maxima that survive the `PEAK_NEIGHBORHOOD_SIZE` distance filter (a tied
maximum within that distance of a higher-priority one is dropped, so ties
are broken among survivors only); the merged peak list is sorted by
`(time_frame ascending, amplitude descending)`. -/
theorem C6_peak_picker :
    (∀ (bandSpec : List (List ℚ)) (freqOffset : ℕ),
      List.Pairwise (fun p q => p.time_frame < q.time_frame)
        (findPeaksInBand bandSpec freqOffset)) ∧
    (∀ (col : List ℚ) (freqOffset t : ℕ), heightFiltered col ≠ [] →
      ∃ p, findPeaksInColumn col freqOffset t = some p ∧ p.time_frame = t ∧
        ∃ j ∈ findPeaksIndices col,
          p.frequency_bin = j + freqOffset ∧ p.amplitude = col.getD j 0 ∧
          (∀ k ∈ heightFiltered col, col.getD k 0 ≤ p.amplitude) ∧
          (∀ k ∈ findPeaksIndices col, k < j → col.getD k 0 < p.amplitude)) ∧
    (∀ (spec : List (List ℚ)) (bands : List (ℕ × ℕ)),
      List.Sorted peakOrder (extractPeaks spec bands)) :=
  ⟨findPeaksInBand_pairwise_time, findPeaksInColumn_spec,
   fun _ _ => List.sorted_insertionSort peakOrder _⟩

/-- Witness for `C6_peak_picker` on the column `[0, 5, 0]` with offset 10
and frame 0. -/
theorem C6_peak_picker_witness :
    heightFiltered [0, 5, 0] ≠ [] ∧
    (∃ p, findPeaksInColumn [0, 5, 0] 10 0 = some p ∧ p.time_frame = 0 ∧
      ∃ j ∈ findPeaksIndices [0, 5, 0],
        p.frequency_bin = j + 10 ∧ p.amplitude = ([0, 5, 0] : List ℚ).getD j 0 ∧
        (∀ k ∈ heightFiltered [0, 5, 0], ([0, 5, 0] : List ℚ).getD k 0 ≤ p.amplitude) ∧
        (∀ k ∈ findPeaksIndices [0, 5, 0], k < j →
          ([0, 5, 0] : List ℚ).getD k 0 < p.amplitude)) :=
  ⟨by with_unfolding_all decide,
   C6_peak_picker.2.1 [0, 5, 0] 10 0 (by with_unfolding_all decide)⟩

/-- C10: the per-band local-maximum search only returns interior bins —
never the first or last bin of a band's range — so for equal-length band
columns no emitted peak carries `frequency_bin = low_bin` or
`frequency_bin = high_bin - 1`. -/
theorem C10_no_band_edge_peaks :
    (∀ col : List ℚ, ∀ j ∈ findPeaksIndices col, 1 ≤ j ∧ j + 2 ≤ col.length) ∧
    (∀ (bandSpec : List (List ℚ)) (freqOffset bandLen : ℕ),
      (∀ col ∈ bandSpec, col.length = bandLen) →
      ∀ p ∈ findPeaksInBand bandSpec freqOffset,
        p.frequency_bin ≠ freqOffset ∧ p.frequency_bin ≠ freqOffset + bandLen - 1) := by
  have hpart1 : ∀ col : List ℚ, ∀ j ∈ findPeaksIndices col, 1 ≤ j ∧ j + 2 ≤ col.length := by
    intro col j hj
    exact localMaxima_mem_bounds col j
      (heightFiltered_subset col (selectByDistance_subset col _ _ hj))
  refine ⟨hpart1, ?_⟩
  intro bs off bl hlen p hp
  unfold findPeaksInBand at hp
  obtain ⟨tc, htc, hsome⟩ := List.mem_filterMap.mp hp
  obtain ⟨-, j, hj, hfreq⟩ := findPeaksInColumn_some_shape tc.2 off tc.1 p hsome
  have hcol_mem : tc.2 ∈ bs := by
    obtain ⟨-, hlt, hx⟩ := List.mem_enumFrom htc
    rw [hx]
    exact List.getElem_mem (by omega)
  have hcl : tc.2.length = bl := hlen tc.2 hcol_mem
  have hb := hpart1 tc.2 j hj
  rw [hcl] at hb
  constructor
  · rw [hfreq]; omega
  · rw [hfreq]; omega

/-- Witness for `C10_no_band_edge_peaks`: the column `[0, 5, 0]` in a
band of 3 bins starting at bin 10 emits the peak at bin 11 — neither
`low_bin = 10` nor `high_bin - 1 = 12`. -/
theorem C10_no_band_edge_peaks_witness :
    ((1 : ℕ) ∈ findPeaksIndices [0, 5, 0] ∧ 1 ≤ 1 ∧ 1 + 2 ≤ ([0, 5, 0] : List ℚ).length) ∧
    ((∀ col ∈ [([0, 5, 0] : List ℚ)], col.length = 3) ∧
      (⟨11, 0, 5⟩ : SpectralPeak) ∈ findPeaksInBand [[0, 5, 0]] 10 ∧
      (⟨11, 0, 5⟩ : SpectralPeak).frequency_bin ≠ 10 ∧
      (⟨11, 0, 5⟩ : SpectralPeak).frequency_bin ≠ 10 + 3 - 1) :=
  ⟨⟨by with_unfolding_all decide,
    C10_no_band_edge_peaks.1 [0, 5, 0] 1 (by with_unfolding_all decide)⟩,
   ⟨by with_unfolding_all decide,
    by with_unfolding_all decide,
    C10_no_band_edge_peaks.2 [[0, 5, 0]] 10 3 (by with_unfolding_all decide)
      ⟨11, 0, 5⟩ (by with_unfolding_all decide)⟩⟩

end Shazam
